import Mathlib

/-!
# Pan tool (TouchInjector.cpp): packet planner, injection clock and gesture driver

A shallow embedding of `src/TouchInjector.cpp`.

* C++ `double` and `float` values are the rational numbers they denote; every
  arithmetic operation is followed by IEEE 754 round-to-nearest-even (`rnd` for
  binary64, `rndf` for binary32), subnormal range included, each operation rounded
  on its own (no fused multiply-add, no wider intermediate format).  All operands
  that occur are far below `2^1024`, so overflow to infinity never arises and is
  not represented.
* `long` and `int` are the 32-bit signed types of the Windows ABI the program is
  written for; `uint32_t`, `uint64_t` and `LONGLONG` have their fixed widths.
  Unsigned arithmetic is taken modulo `2^32` or `2^64`; the few signed additions
  are taken in two's complement (`wrapLong`).
* A conversion from a floating value to an integer type that cannot hold the
  truncated value, and an integer remainder by zero, have no defined result in
  C++; the embedding reports them as a `Fault`.
* The operating system is a script of answers (`Script`): whether each setup call
  succeeds, the performance-counter frequency, the results of the successive
  timer waits and the successive performance-counter readings.  `main` returns
  the list of platform calls it made together with how it ended.
-/

namespace TouchInjector

/-! ## Floating-point arithmetic -/

/-- Position of the highest set bit of `n` (`0` for `n < 2`), by halving at most `fuel` times. -/
def log2Fuel : ℕ → ℕ → ℕ
  | 0, _ => 0
  | fuel + 1, n => if n < 2 then 0 else log2Fuel fuel (n / 2) + 1

/-- The binary exponent `e` of a positive rational `x`: `2^e ≤ x < 2^(e+1)`. -/
def floorLog2 (x : ℚ) : ℤ :=
  let a := log2Fuel x.num.natAbs x.num.natAbs
  let b := log2Fuel x.den x.den
  if x.den * 2 ^ a ≤ x.num.natAbs * 2 ^ b then (a : ℤ) - b else (a : ℤ) - b - 1

/-- Nearest integer to `x`, a tie going to the even neighbour. -/
def roundHalfEven (x : ℚ) : ℤ :=
  let q := x.num / x.den
  let r := x.num % x.den
  if 2 * r < x.den then q
  else if (x.den : ℤ) < 2 * r then q + 1
  else if q % 2 = 0 then q else q + 1

/-- Rounding of a non-negative `x` to the nearest number with a `p`-bit significand and
binary exponent at least `emin` (below `2^emin` the spacing stays that of `2^emin`). -/
def roundMag (p : ℕ) (emin : ℤ) (x : ℚ) : ℚ :=
  let s : ℤ := max (floorLog2 x) emin - (p - 1)
  roundHalfEven (x / 2 ^ s) * 2 ^ s

/-- Round-to-nearest-even in a binary format with `p` significand bits and least normal
exponent `emin`; the format is symmetric in the sign. -/
def roundFloat (p : ℕ) (emin : ℤ) (x : ℚ) : ℚ :=
  if x.num < 0 then -roundMag p emin (-x) else roundMag p emin x

/-- Rounding to `double` (binary64). -/
def rnd (x : ℚ) : ℚ := roundFloat 53 (-1022) x

/-- Rounding to `float` (binary32). -/
def rndf (x : ℚ) : ℚ := roundFloat 24 (-126) x

/-- Things C++ leaves without a defined result. -/
inductive Fault
  | castOutOfRange
  | remainderByZero
  | notFinite
deriving DecidableEq, Repr

deriving instance DecidableEq for Except

/-- Truncation toward zero, the integer part a C++ floating-to-integer conversion keeps. -/
def truncToInt (x : ℚ) : ℤ := Int.tdiv x.num x.den

/-- Conversion of a floating value to a signed integer type of `w` bits. -/
def castSigned (w : ℕ) (x : ℚ) : Except Fault ℤ :=
  let t := truncToInt x
  if -(2 : ℤ) ^ (w - 1) ≤ t ∧ t < (2 : ℤ) ^ (w - 1) then .ok t else .error .castOutOfRange

/-- Conversion of a floating value to an unsigned integer type of `w` bits. -/
def castUnsigned (w : ℕ) (x : ℚ) : Except Fault ℕ :=
  let t := truncToInt x
  if 0 ≤ t ∧ t < (2 : ℤ) ^ w then .ok t.toNat else .error .castOutOfRange

/-- Two-complement value of an integer in the 32-bit `long`. -/
def wrapLong (z : ℤ) : ℤ := (z + 2 ^ 31) % 2 ^ 32 - 2 ^ 31

/-! ## Constants and pure helpers (lines 8-40) -/

/-- Milliseconds per second. -/
def MS_PER_SEC : ℕ := 1000

/-- Microseconds per second. -/
def US_PER_SEC : ℕ := (MS_PER_SEC * MS_PER_SEC) % 2 ^ 32

/-- `Interpolate(start, end, ratio)`: `static_cast<long>(start + (end - start) * ratio)`. -/
def Interpolate (start stop : ℤ) (ratio : ℚ) : Except Fault ℤ :=
  castSigned 32 (rnd ((start : ℚ) + rnd ((wrapLong (stop - start) : ℚ) * ratio)))

/-- `InjectionIntervalInMsFromFrequency(frequency)`: `(1.0 / double(frequency)) * MS_PER_SEC`.
For `frequency = 0` the C++ value is infinite; callers in this file exclude it. -/
def InjectionIntervalInMsFromFrequency (frequency : ℤ) : ℚ :=
  rnd (rnd (1 / (frequency : ℚ)) * (MS_PER_SEC : ℚ))

/-- `CalculatePacketsNeeded(duration, interval)`: the quotient in `double` converted to
`uint32_t`, incremented (in `uint32_t`) when `duration % static_cast<long>(interval)` is not
zero.  A zero `interval` makes the quotient infinite or undefined.  (The one overflowing
remainder, `duration = -2^31` by `-1`, is not singled out.) -/
def CalculatePacketsNeeded (duration : ℤ) (interval : ℚ) : Except Fault ℕ :=
  if interval = 0 then .error .notFinite else
  match castUnsigned 32 (rnd ((duration : ℚ) / interval)) with
  | .error f => .error f
  | .ok packet_count =>
    match castSigned 32 interval with
    | .error f => .error f
    | .ok whole =>
      if whole = 0 then .error .remainderByZero
      else if Int.tmod duration whole ≠ 0 then .ok ((packet_count + 1) % 2 ^ 32)
      else .ok packet_count

/-! ## Platform interface -/

/-- Value of `POINTER_FLAG_INRANGE` in the Windows SDK (`winuser.h`). -/
def POINTER_FLAG_INRANGE : ℕ := 0x00000002

/-- Value of `POINTER_FLAG_INCONTACT` in the Windows SDK. -/
def POINTER_FLAG_INCONTACT : ℕ := 0x00000004

/-- Value of `POINTER_FLAG_DOWN` in the Windows SDK. -/
def POINTER_FLAG_DOWN : ℕ := 0x00010000

/-- Value of `POINTER_FLAG_UPDATE` in the Windows SDK. -/
def POINTER_FLAG_UPDATE : ℕ := 0x00020000

/-- Value of `POINTER_FLAG_UP` in the Windows SDK. -/
def POINTER_FLAG_UP : ℕ := 0x00040000

/-- The fields of `POINTER_TOUCH_INFO` the program varies: `pointerInfo.pointerFlags`,
`pointerInfo.ptPixelLocation`, `rcContact` and `pointerInfo.PerformanceCount`.  The fields it
sets to the same constant in every repetition (pointer type and id, touch flags and mask,
orientation, pressure) are left out. -/
structure POINTER_TOUCH_INFO where
  pointerFlags : ℕ
  x : ℤ
  y : ℤ
  top : ℤ
  bottom : ℤ
  left : ℤ
  right : ℤ
  PerformanceCount : ℕ
deriving DecidableEq, Repr

/-- Platform calls made by the program, in the order of the source.  Console output and
the calls that only read (`GetLastError`, `QueryPerformanceFrequency`,
`QueryPerformanceCounter`, `GetCurrentProcess`, `GetCurrentThread`) are not recorded. -/
inductive Call
  | SetPriorityClass
  | SetThreadPriority
  | timeBeginPeriod (uPeriod : ℕ)
  | CreateWaitableTimer
  | SetWaitableTimer (dueTime : ℤ) (period : ℤ)
  | InitializeTouchInjection
  | Sleep (milliseconds : ℕ)
  | WaitForSingleObject
  | InjectTouchInput (contact : POINTER_TOUCH_INFO)
  | CancelWaitableTimer
  | CloseHandle
  | timeEndPeriod (uPeriod : ℕ)
deriving DecidableEq, Repr

/-- How a run ends: `main` returns a code, or it never returns (a wait that is not answered,
a busy-wait whose condition the counter readings never meet), or it reaches an operation
without a defined result. -/
inductive Outcome
  | returned (code : ℤ)
  | hangs
  | undefined (fault : Fault)
deriving DecidableEq, Repr

/-- The values parsed from the command line (lines 83-153), with the defaults of the source;
`repetitions` is the variable `repeat`, the three durations are `float` values in seconds. -/
structure Arguments where
  distance : ℤ := 500
  duration : ℚ := 1
  repetitions : ℤ := 1
  start_delay : ℚ := 1
  segment_delay : ℚ := 3
  frequency : ℤ := 100
  acceleration : Bool := false

/-- The answers of the operating system during one run: whether `SetPriorityClass`,
`SetThreadPriority`, `CreateWaitableTimer` and `SetWaitableTimer` succeed, the value of
`QueryPerformanceFrequency`, for each `WaitForSingleObject` in turn whether it returns
`WAIT_OBJECT_0`, and the values of the successive `QueryPerformanceCounter` readings. -/
structure Script where
  setPriorityClass : Bool := true
  setThreadPriority : Bool := true
  createWaitableTimer : Bool := true
  setWaitableTimer : Bool := true
  qpc_frequency : ℤ := 10000000
  waits : List Bool
  counter : List ℕ

/-! ## Injection clock (lines 42-79) -/

/-- The busy-wait of `InjectPointer` (lines 51-54): starting from the reading `now`, further
readings are taken while `now - injection_time`, in 64-bit unsigned arithmetic, is below the
interval.  The result is the readings left over, or `none` when they run out first. -/
def busyWait (injection_time interval : ℕ) : ℕ → List ℕ → Option (List ℕ)
  | now, [] =>
    if (now + (2 ^ 64 - injection_time % 2 ^ 64)) % 2 ^ 64 < interval then none else some []
  | now, next :: rest =>
    if (now + (2 ^ 64 - injection_time % 2 ^ 64)) % 2 ^ 64 < interval then
      busyWait injection_time interval next rest
    else some (next :: rest)

/-- `InjectPointer(touch_info)`.  `interval` is the global `injection_interval_in_qpc_units`,
`injection_time` the function-local static, `counter` the readings still to come.  The result
is the contact as handed to `InjectTouchInput`, the new `injection_time` and the readings
left. -/
def InjectPointer (interval injection_time : ℕ) (touch_info : POINTER_TOUCH_INFO)
    (counter : List ℕ) : Option (POINTER_TOUCH_INFO × ℕ × List ℕ) :=
  match counter with
  | [] => none
  | perf_counter_now :: rest =>
    if touch_info.pointerFlags &&& POINTER_FLAG_DOWN ≠ 0 then
      let t := perf_counter_now % 2 ^ 64
      some ({ touch_info with PerformanceCount := t }, t, rest)
    else
      match busyWait injection_time interval perf_counter_now rest with
      | none => none
      | some rest' =>
        let t := (injection_time + interval) % 2 ^ 64
        some ({ touch_info with PerformanceCount := t }, t, rest')

/-- `SendPointerDown(touch_info)`. -/
def SendPointerDown (interval injection_time : ℕ) (touch_info : POINTER_TOUCH_INFO)
    (counter : List ℕ) : Option (POINTER_TOUCH_INFO × ℕ × List ℕ) :=
  InjectPointer interval injection_time
    { touch_info with
      pointerFlags := POINTER_FLAG_DOWN ||| POINTER_FLAG_INRANGE ||| POINTER_FLAG_INCONTACT }
    counter

/-- `SendPointerMove(touch_info)`. -/
def SendPointerMove (interval injection_time : ℕ) (touch_info : POINTER_TOUCH_INFO)
    (counter : List ℕ) : Option (POINTER_TOUCH_INFO × ℕ × List ℕ) :=
  InjectPointer interval injection_time
    { touch_info with
      pointerFlags := POINTER_FLAG_UPDATE ||| POINTER_FLAG_INRANGE ||| POINTER_FLAG_INCONTACT }
    counter

/-- `SendPointerUp(touch_info)`. -/
def SendPointerUp (interval injection_time : ℕ) (touch_info : POINTER_TOUCH_INFO)
    (counter : List ℕ) : Option (POINTER_TOUCH_INFO × ℕ × List ℕ) :=
  InjectPointer interval injection_time { touch_info with pointerFlags := POINTER_FLAG_UP }
    counter

/-- A down packet followed by further packets, each through `InjectPointer`, threading the
static `injection_time` and the counter readings: the contacts as stamped, in order. -/
def injectAll (interval : ℕ) : ℕ → List POINTER_TOUCH_INFO → List ℕ →
    Option (List POINTER_TOUCH_INFO)
  | _, [], _ => some []
  | injection_time, touch_info :: later, counter =>
    match InjectPointer interval injection_time touch_info counter with
    | none => none
    | some (stamped, injection_time', counter') =>
      match injectAll interval injection_time' later counter' with
      | none => none
      | some stampedLater => some (stamped :: stampedLater)

/-! ## Gesture driver (`main`, lines 155-270) -/

/-- The ratio of tick `i` (lines 249-251): `double(i) / double(packets)`, and with
`acceleration` set, `ratio *= (1.0f * (ratio - 1) + 1)`, every operation in `double`. -/
def tickRatio (acceleration : Bool) (i packets : ℕ) : ℚ :=
  let ratio := rnd ((i : ℚ) / (packets : ℚ))
  if acceleration then rnd (ratio * rnd (rnd (1 * rnd (ratio - 1)) + 1)) else ratio

/-- The value `main` stores in the global `injection_interval_in_qpc_units` (lines 191-193):
`static_cast<uint64_t>(interval * (MS_PER_SEC * (qpc_frequency.QuadPart / US_PER_SEC)))`.
The quotient and the product are 64-bit signed integer operations (the product cannot leave
that range), the outer product is in `double`. -/
def injection_interval_in_qpc_units (interval : ℚ) (qpc_frequency : ℤ) : Except Fault ℕ :=
  castUnsigned 64
    (rnd (interval * rnd (((MS_PER_SEC : ℤ) * Int.tdiv qpc_frequency (US_PER_SEC : ℤ) : ℤ) : ℚ)))

/-- What the loops of `main` carry from one step to the next: the contact record, the static
`injection_time` of `InjectPointer`, and the answers of the system not yet consumed. -/
structure Driver where
  contact : POINTER_TOUCH_INFO
  injection_time : ℕ
  counter : List ℕ
  waits : List Bool

/-- The move loop (lines 241-258), entered with the loop variable `i`.  Each iteration takes
one wait result, so the recursion is on `waits`. -/
def moveLoop (acceleration : Bool) (starty endy : ℤ) (packets interval : ℕ) :
    ℕ → POINTER_TOUCH_INFO → ℕ → List ℕ → List Bool → List Call × Except Outcome Driver
  | i, contact, injection_time, counter, [] =>
    if i ≤ packets then ([Call.WaitForSingleObject], .error Outcome.hangs)
    else ([], .ok ⟨contact, injection_time, counter, []⟩)
  | i, contact, injection_time, counter, signalled :: waits =>
    if i ≤ packets then
      if signalled = false then
        ([Call.WaitForSingleObject, Call.CancelWaitableTimer, Call.CloseHandle],
          .error (Outcome.returned (-1)))
      else
        match Interpolate starty endy (tickRatio acceleration i packets) with
        | .error f => ([Call.WaitForSingleObject], .error (Outcome.undefined f))
        | .ok y =>
          let moved : POINTER_TOUCH_INFO :=
            { contact with y := y, right := wrapLong (y + 2), bottom := wrapLong (y + 2) }
          match SendPointerMove interval injection_time moved counter with
          | none => ([Call.WaitForSingleObject], .error Outcome.hangs)
          | some (sent, injection_time', counter') =>
            let next := moveLoop acceleration starty endy packets interval
              ((i + 1) % 2 ^ 32) sent injection_time' counter' waits
            (Call.WaitForSingleObject :: Call.InjectTouchInput sent :: next.1, next.2)
    else ([], .ok ⟨contact, injection_time, counter, signalled :: waits⟩)

/-- The repetition loop (lines 224-265) with `remaining` iterations to go. -/
def gestureLoop (acceleration : Bool) (repetitions startx starty endy : ℤ)
    (packets interval : ℕ) (segment_sleep : Except Fault ℕ) :
    ℕ → Driver → List Call × Except Outcome Driver
  | 0, d => ([], .ok d)
  | remaining + 1, d =>
    let contact : POINTER_TOUCH_INFO :=
      { d.contact with
        x := startx, y := starty,
        top := wrapLong (starty - 2), bottom := wrapLong (starty + 2),
        left := wrapLong (startx - 2), right := wrapLong (startx + 2) }
    match SendPointerDown interval d.injection_time contact d.counter with
    | none => ([], .error Outcome.hangs)
    | some (down, t, counter) =>
      match moveLoop acceleration starty endy packets interval 1 down t counter d.waits with
      | (moves, .error o) => (Call.InjectTouchInput down :: moves, .error o)
      | (moves, .ok d1) =>
        match SendPointerUp interval d1.injection_time d1.contact d1.counter with
        | none => (Call.InjectTouchInput down :: moves, .error Outcome.hangs)
        | some (up, t', counter') =>
          let sent := Call.InjectTouchInput down :: moves ++ [Call.InjectTouchInput up]
          let d2 : Driver := ⟨up, t', counter', d1.waits⟩
          if repetitions ≠ 1 then
            match segment_sleep with
            | .error f => (sent, .error (Outcome.undefined f))
            | .ok ms =>
              let next := gestureLoop acceleration repetitions startx starty endy packets
                interval segment_sleep remaining d2
              (sent ++ Call.Sleep ms :: next.1, next.2)
          else
            let next := gestureLoop acceleration repetitions startx starty endy packets
              interval segment_sleep remaining d2
            (sent ++ next.1, next.2)

/-- `main` after argument parsing (lines 155-270): the platform calls made, in order, and
how the run ends. -/
def main (args : Arguments) (os : Script) : List Call × Outcome :=
  if os.setPriorityClass = false then ([Call.SetPriorityClass], Outcome.returned (-1)) else
  if os.setThreadPriority = false then
    ([Call.SetPriorityClass, Call.SetThreadPriority], Outcome.returned (-1)) else
  let priority := [Call.SetPriorityClass, Call.SetThreadPriority]
  let startx : ℤ := 100
  let starty : ℤ := wrapLong (100 + args.distance)
  let endy : ℤ := 100
  match castSigned 32 (rndf (args.duration * (MS_PER_SEC : ℚ))) with
  | .error f => (priority, Outcome.undefined f)
  | .ok duration_in_ms =>
  if args.frequency = 0 then (priority, Outcome.undefined Fault.notFinite) else
  let injection_interval_in_ms_from_frequency :=
    InjectionIntervalInMsFromFrequency args.frequency
  match castUnsigned 32 injection_interval_in_ms_from_frequency with
  | .error f => (priority, Outcome.undefined f)
  | .ok period =>
  let created := priority ++ [Call.timeBeginPeriod period, Call.CreateWaitableTimer]
  if os.createWaitableTimer = false then (created, Outcome.returned (-1)) else
  match injection_interval_in_qpc_units injection_interval_in_ms_from_frequency
      os.qpc_frequency with
  | .error f => (created, Outcome.undefined f)
  | .ok qpc_units =>
  match castSigned 64 (rnd (injection_interval_in_ms_from_frequency * 10000)) with
  | .error f => (created, Outcome.undefined f)
  | .ok li_due_time =>
  match castSigned 32 injection_interval_in_ms_from_frequency with
  | .error f => (created, Outcome.undefined f)
  | .ok timer_period =>
  let armed := created ++ [Call.SetWaitableTimer (-li_due_time) timer_period]
  if os.setWaitableTimer = false then
    (armed ++ [Call.CloseHandle], Outcome.returned (-1)) else
  match castUnsigned 32 (rndf (args.start_delay * (MS_PER_SEC : ℚ))) with
  | .error f => (armed ++ [Call.InitializeTouchInjection], Outcome.undefined f)
  | .ok start_sleep =>
  let started := armed ++ [Call.InitializeTouchInjection, Call.Sleep start_sleep]
  match CalculatePacketsNeeded duration_in_ms injection_interval_in_ms_from_frequency with
  | .error f => (started, Outcome.undefined f)
  | .ok packets =>
  match gestureLoop args.acceleration args.repetitions startx starty endy packets qpc_units
      (castUnsigned 32 (rndf (args.segment_delay * (MS_PER_SEC : ℚ))))
      args.repetitions.toNat ⟨⟨0, 0, 0, 0, 0, 0, 0, 0⟩, 0, os.counter, os.waits⟩ with
  | (calls, .error o) => (started ++ calls, o)
  | (calls, .ok _) =>
    (started ++ calls ++
      [Call.CancelWaitableTimer, Call.CloseHandle, Call.timeEndPeriod period],
      Outcome.returned 0)

/-- The contacts handed to `InjectTouchInput`, in order. -/
def injected : List Call → List POINTER_TOUCH_INFO
  | [] => []
  | Call.InjectTouchInput contact :: rest => contact :: injected rest
  | _ :: rest => injected rest

/-! ## Concrete runs used below -/

/-- The end-to-end scenario: `distance 100 duration 1.0 frequency 50`, one repetition, linear. -/
def scenario : Arguments := { distance := 100, duration := 1, frequency := 50 }

/-- A system on which every setup call and every timer wait succeeds, with the 10 MHz
counter read 52 times, 250000 counts apart. -/
def steadySystem : Script :=
  { waits := List.replicate 50 true
    counter := (List.range 52).map fun k => 1000 + 250000 * k }

/-- A system on which 119 timer waits succeed, with the counter read 121 times, 100000 counts
apart. -/
def steadySystem120 : Script :=
  { waits := List.replicate 119 true
    counter := (List.range 121).map fun k => 1000 + 100000 * k }

/-- A system that cannot create the waitable timer. -/
def noTimerSystem : Script := { createWaitableTimer := false, waits := [], counter := [] }

/-- A system on which arming the waitable timer fails. -/
def noArmSystem : Script := { setWaitableTimer := false, waits := [], counter := [] }

/-- A system whose third timer wait fails. -/
def failedWaitSystem : Script :=
  { waits := [true, true, false], counter := [1000, 251000, 501000] }

/-! ## Properties of the rounding -/

theorem log2Fuel_spec : ∀ (fuel n : ℕ), n ≤ fuel → 0 < n →
    2 ^ log2Fuel fuel n ≤ n ∧ n < 2 ^ (log2Fuel fuel n + 1) := by
  intro fuel
  induction fuel with
  | zero => intro n h1 h2; omega
  | succ fuel ih =>
    intro n hn hpos
    unfold log2Fuel
    by_cases h2 : n < 2
    · simp only [h2, if_true]
      constructor <;> simp <;> omega
    · simp only [h2, if_false]
      have := ih (n / 2) (by omega) (by omega)
      rw [pow_succ, pow_succ (n := log2Fuel fuel (n / 2) + 1)]
      omega

theorem quotient_exponent (N D a b : ℕ) (hD : 0 < D)
    (ha1 : 2 ^ a ≤ N) (ha2 : N < 2 ^ (a + 1)) (hb1 : 2 ^ b ≤ D) (hb2 : D < 2 ^ (b + 1)) :
    (2 : ℚ) ^ (if D * 2 ^ a ≤ N * 2 ^ b then (a : ℤ) - b else (a : ℤ) - b - 1) ≤ (N : ℚ) / D ∧
    (N : ℚ) / D <
      (2 : ℚ) ^ ((if D * 2 ^ a ≤ N * 2 ^ b then (a : ℤ) - b else (a : ℤ) - b - 1) + 1) := by
  have hD' : (0 : ℚ) < (D : ℚ) := by exact_mod_cast hD
  have h2a : (0 : ℚ) < (2 : ℚ) ^ a := by positivity
  have h2b : (0 : ℚ) < (2 : ℚ) ^ b := by positivity
  have ha1' : ((2 : ℚ) ^ a) ≤ (N : ℚ) := by exact_mod_cast ha1
  have ha2' : (N : ℚ) < ((2 : ℚ) ^ (a + 1)) := by exact_mod_cast ha2
  have hb1' : ((2 : ℚ) ^ b) ≤ (D : ℚ) := by exact_mod_cast hb1
  have hb2' : (D : ℚ) < ((2 : ℚ) ^ (b + 1)) := by exact_mod_cast hb2
  have key1 : (2 : ℚ) ^ ((a : ℤ) - b) = (2 : ℚ) ^ a / (2 : ℚ) ^ b := by
    rw [zpow_sub₀ (by norm_num), zpow_natCast, zpow_natCast]
  by_cases hc : D * 2 ^ a ≤ N * 2 ^ b
  · have hc' : (D : ℚ) * 2 ^ a ≤ (N : ℚ) * 2 ^ b := by exact_mod_cast hc
    simp only [hc, if_true]
    constructor
    · rw [key1, div_le_div_iff₀ h2b hD']
      linarith
    · rw [zpow_add₀ (by norm_num), key1, zpow_one, div_lt_iff₀ hD']
      calc (N : ℚ) < 2 ^ (a + 1) := ha2'
        _ = 2 ^ a / 2 ^ b * 2 * 2 ^ b := by field_simp; ring
        _ ≤ 2 ^ a / 2 ^ b * 2 * D := by gcongr
  · have hc' : (N : ℚ) * 2 ^ b < (D : ℚ) * 2 ^ a := by
      exact_mod_cast not_le.mp hc
    simp only [hc, if_false]
    constructor
    · rw [zpow_sub₀ (by norm_num), key1, zpow_one, le_div_iff₀ hD']
      calc (2 : ℚ) ^ a / 2 ^ b / 2 * D ≤ 2 ^ a / 2 ^ b / 2 * 2 ^ (b + 1) := by gcongr
        _ = 2 ^ a := by field_simp; ring
        _ ≤ N := ha1'
    · have : (a : ℤ) - b - 1 + 1 = (a : ℤ) - b := by ring
      rw [this, key1, div_lt_div_iff₀ hD' h2b]
      linarith

theorem floorLog2_spec (x : ℚ) (hx : 0 < x) :
    (2 : ℚ) ^ floorLog2 x ≤ x ∧ x < (2 : ℚ) ^ (floorLog2 x + 1) := by
  have hnum : 0 < x.num := Rat.num_pos.mpr hx
  have hden : 0 < x.den := x.den_pos
  obtain ⟨ha1, ha2⟩ := log2Fuel_spec x.num.natAbs x.num.natAbs le_rfl (by omega)
  obtain ⟨hb1, hb2⟩ := log2Fuel_spec x.den x.den le_rfl hden
  have h := quotient_exponent x.num.natAbs x.den _ _ hden ha1 ha2 hb1 hb2
  have hxeq : (x.num.natAbs : ℚ) / (x.den : ℚ) = x := by
    have h1 : ((x.num.natAbs : ℤ) : ℚ) = (x.num : ℚ) := by
      rw [Int.natAbs_of_nonneg hnum.le]
    rw [← Int.cast_natCast, h1]
    exact Rat.num_div_den x
  rw [hxeq] at h
  exact h

theorem fract_eq_emod (x : ℚ) :
    Int.fract x = ((x.num % (x.den : ℤ) : ℤ) : ℚ) / (x.den : ℚ) := by
  have hD : (x.den : ℚ) ≠ 0 := by exact_mod_cast x.den_nz
  rw [Int.fract, Rat.floor_def, eq_div_iff hD, Int.emod_def]
  push_cast
  have : x * (x.den : ℚ) = x.num := Rat.mul_den_eq_num x
  linear_combination this

theorem roundHalfEven_eq (x : ℚ) :
    roundHalfEven x =
      if Int.fract x < 1 / 2 then ⌊x⌋
      else if 1 / 2 < Int.fract x then ⌊x⌋ + 1
      else if ⌊x⌋ % 2 = 0 then ⌊x⌋ else ⌊x⌋ + 1 := by
  have hD : (0 : ℚ) < (x.den : ℚ) := by exact_mod_cast x.den_pos
  have h1 : (2 * (x.num % (x.den : ℤ)) < (x.den : ℤ)) ↔ Int.fract x < 1 / 2 := by
    rw [fract_eq_emod, div_lt_iff₀ hD]
    constructor
    · intro h
      have : ((2 * (x.num % (x.den : ℤ)) : ℤ) : ℚ) < ((x.den : ℤ) : ℚ) := by exact_mod_cast h
      push_cast at this
      linarith
    · intro h
      have : ((2 * (x.num % (x.den : ℤ)) : ℤ) : ℚ) < ((x.den : ℤ) : ℚ) := by
        push_cast
        linarith
      exact_mod_cast this
  have h2 : ((x.den : ℤ) < 2 * (x.num % (x.den : ℤ))) ↔ 1 / 2 < Int.fract x := by
    rw [fract_eq_emod, lt_div_iff₀ hD]
    constructor
    · intro h
      have : ((x.den : ℤ) : ℚ) < ((2 * (x.num % (x.den : ℤ)) : ℤ) : ℚ) := by exact_mod_cast h
      push_cast at this
      linarith
    · intro h
      have : ((x.den : ℤ) : ℚ) < ((2 * (x.num % (x.den : ℤ)) : ℤ) : ℚ) := by
        push_cast
        linarith
      exact_mod_cast this
  unfold roundHalfEven
  simp only [h1, h2, ← Rat.floor_def]

theorem roundHalfEven_intCast (n : ℤ) : roundHalfEven (n : ℚ) = n := by
  rw [roundHalfEven_eq]
  simp

theorem roundHalfEven_near (x : ℚ) :
    x - 1 / 2 ≤ (roundHalfEven x : ℚ) ∧ (roundHalfEven x : ℚ) ≤ x + 1 / 2 := by
  have hx : (⌊x⌋ : ℚ) + Int.fract x = x := Int.floor_add_fract x
  have h0 : 0 ≤ Int.fract x := Int.fract_nonneg x
  have h1 : Int.fract x < 1 := Int.fract_lt_one x
  rw [roundHalfEven_eq]
  split_ifs with a b c
  · constructor <;> linarith
  · push_cast; constructor <;> linarith
  · constructor <;> linarith
  · push_cast; constructor <;> linarith

theorem roundHalfEven_mono {x y : ℚ} (h : x ≤ y) : roundHalfEven x ≤ roundHalfEven y := by
  have hx : (⌊x⌋ : ℚ) + Int.fract x = x := Int.floor_add_fract x
  have hy : (⌊y⌋ : ℚ) + Int.fract y = y := Int.floor_add_fract y
  have hf : ⌊x⌋ ≤ ⌊y⌋ := Int.floor_le_floor h
  have hxlo : ⌊x⌋ ≤ roundHalfEven x := by
    rw [roundHalfEven_eq]; split_ifs <;> omega
  have hxhi : roundHalfEven x ≤ ⌊x⌋ + 1 := by
    rw [roundHalfEven_eq]; split_ifs <;> omega
  have hylo : ⌊y⌋ ≤ roundHalfEven y := by
    rw [roundHalfEven_eq]; split_ifs <;> omega
  rcases lt_or_eq_of_le hf with hlt | heq
  · omega
  · have hfr : Int.fract x ≤ Int.fract y := by
      have : (⌊x⌋ : ℚ) = (⌊y⌋ : ℚ) := by rw [heq]
      linarith
    rw [roundHalfEven_eq x, roundHalfEven_eq y, heq]
    split_ifs <;> first | omega | (exfalso; linarith)

theorem le_roundHalfEven {m : ℤ} {x : ℚ} (h : (m : ℚ) ≤ x) : m ≤ roundHalfEven x := by
  have := roundHalfEven_mono h
  rwa [roundHalfEven_intCast] at this

theorem roundHalfEven_le {m : ℤ} {x : ℚ} (h : x ≤ (m : ℚ)) : roundHalfEven x ≤ m := by
  have := roundHalfEven_mono h
  rwa [roundHalfEven_intCast] at this

theorem floorLog2_mono {x y : ℚ} (hx : 0 < x) (h : x ≤ y) : floorLog2 x ≤ floorLog2 y := by
  by_contra hlt
  push_neg at hlt
  have h1 := (floorLog2_spec x hx).1
  have h2 := (floorLog2_spec y (lt_of_lt_of_le hx h)).2
  have h3 : (2 : ℚ) ^ (floorLog2 y + 1) ≤ (2 : ℚ) ^ floorLog2 x :=
    zpow_le_zpow_right₀ (by norm_num) (by omega)
  linarith

theorem floorLog2_ge {x : ℚ} {e : ℤ} (h : (2 : ℚ) ^ e ≤ x) : e ≤ floorLog2 x := by
  have hx : 0 < x := lt_of_lt_of_le (by positivity) h
  by_contra hlt
  push_neg at hlt
  have h2 := (floorLog2_spec x hx).2
  have h3 : (2 : ℚ) ^ (floorLog2 x + 1) ≤ (2 : ℚ) ^ e :=
    zpow_le_zpow_right₀ (by norm_num) (by omega)
  linarith

theorem roundMag_zero (p : ℕ) (emin : ℤ) : roundMag p emin 0 = 0 := by
  unfold roundMag
  simp only [zero_div]
  have : roundHalfEven 0 = 0 := by
    have := roundHalfEven_intCast 0
    simpa using this
  rw [this]
  simp

theorem roundMag_nonneg (p : ℕ) (emin : ℤ) {x : ℚ} (hx : 0 ≤ x) : 0 ≤ roundMag p emin x := by
  unfold roundMag
  have h2 : (0 : ℚ) < (2 : ℚ) ^ (max (floorLog2 x) emin - ((p : ℤ) - 1)) := by positivity
  have : (0 : ℤ) ≤ roundHalfEven (x / (2 : ℚ) ^ (max (floorLog2 x) emin - ((p : ℤ) - 1))) :=
    le_roundHalfEven (by simpa using div_nonneg hx h2.le)
  have hc : (0 : ℚ) ≤ (roundHalfEven (x / (2 : ℚ) ^ (max (floorLog2 x) emin - ((p : ℤ) - 1))) : ℚ) := by
    exact_mod_cast this
  exact mul_nonneg hc h2.le

/-- The rounded value is within half a unit in the last place of `x`. -/
theorem roundMag_near (p : ℕ) (emin : ℤ) (x : ℚ) :
    x - (2 : ℚ) ^ (max (floorLog2 x) emin - ((p : ℤ) - 1)) / 2 ≤ roundMag p emin x ∧
    roundMag p emin x ≤ x + (2 : ℚ) ^ (max (floorLog2 x) emin - ((p : ℤ) - 1)) / 2 := by
  unfold roundMag
  have h2 : (0 : ℚ) < (2 : ℚ) ^ (max (floorLog2 x) emin - ((p : ℤ) - 1)) := by positivity
  obtain ⟨hlo, hhi⟩ :=
    roundHalfEven_near (x / (2 : ℚ) ^ (max (floorLog2 x) emin - ((p : ℤ) - 1)))
  have hx : x / (2 : ℚ) ^ (max (floorLog2 x) emin - ((p : ℤ) - 1)) *
      (2 : ℚ) ^ (max (floorLog2 x) emin - ((p : ℤ) - 1)) = x := div_mul_cancel₀ x h2.ne'
  constructor
  · have := mul_le_mul_of_nonneg_right hlo h2.le
    simp only []
    linarith
  · have := mul_le_mul_of_nonneg_right hhi h2.le
    simp only []
    linarith

theorem roundMag_upper (p : ℕ) (emin : ℤ) {x : ℚ} (hx : 0 < x) :
    roundMag p emin x ≤ (2 : ℚ) ^ (max (floorLog2 x) emin + 1) := by
  unfold roundMag
  simp only []
  set E := max (floorLog2 x) emin with hE
  have h2 : (0 : ℚ) < (2 : ℚ) ^ (E - ((p : ℤ) - 1)) := by positivity
  have hxlt : x < (2 : ℚ) ^ (E + 1) :=
    lt_of_lt_of_le (floorLog2_spec x hx).2
      (zpow_le_zpow_right₀ (by norm_num) (by have := le_max_left (floorLog2 x) emin; omega))
  have hsplit : (2 : ℚ) ^ (E + 1) = (((2 : ℤ) ^ p : ℤ) : ℚ) * (2 : ℚ) ^ (E - ((p : ℤ) - 1)) := by
    push_cast
    rw [← zpow_natCast, ← zpow_add₀ (by norm_num)]
    congr 1
    ring
  have hz : x / (2 : ℚ) ^ (E - ((p : ℤ) - 1)) ≤ (((2 : ℤ) ^ p : ℤ) : ℚ) := by
    rw [div_le_iff₀ h2, ← hsplit]
    exact hxlt.le
  have hr : (roundHalfEven (x / (2 : ℚ) ^ (E - ((p : ℤ) - 1))) : ℚ) ≤ (((2 : ℤ) ^ p : ℤ) : ℚ) := by
    exact_mod_cast roundHalfEven_le hz
  rw [hsplit]
  exact mul_le_mul_of_nonneg_right hr h2.le

theorem roundMag_lower (p : ℕ) (emin : ℤ) (hp : 1 ≤ p) {x : ℚ} (hx : 0 < x)
    (he : emin ≤ floorLog2 x) : (2 : ℚ) ^ floorLog2 x ≤ roundMag p emin x := by
  unfold roundMag
  simp only []
  rw [max_eq_left he]
  set e := floorLog2 x with hE
  have h2 : (0 : ℚ) < (2 : ℚ) ^ (e - ((p : ℤ) - 1)) := by positivity
  have hsplit : (2 : ℚ) ^ e = (((2 : ℤ) ^ (p - 1) : ℤ) : ℚ) * (2 : ℚ) ^ (e - ((p : ℤ) - 1)) := by
    push_cast
    rw [← zpow_natCast, ← zpow_add₀ (by norm_num)]
    congr 1
    rw [Nat.cast_sub hp]
    push_cast
    ring
  have hz : (((2 : ℤ) ^ (p - 1) : ℤ) : ℚ) ≤ x / (2 : ℚ) ^ (e - ((p : ℤ) - 1)) := by
    rw [le_div_iff₀ h2, ← hsplit]
    exact (floorLog2_spec x hx).1
  have hr : (((2 : ℤ) ^ (p - 1) : ℤ) : ℚ) ≤ (roundHalfEven (x / (2 : ℚ) ^ (e - ((p : ℤ) - 1))) : ℚ) := by
    exact_mod_cast le_roundHalfEven hz
  rw [hsplit]
  exact mul_le_mul_of_nonneg_right hr h2.le

theorem roundMag_mono (p : ℕ) (emin : ℤ) (hp : 1 ≤ p) {x y : ℚ} (hx : 0 ≤ x) (h : x ≤ y) :
    roundMag p emin x ≤ roundMag p emin y := by
  rcases eq_or_lt_of_le hx with h0 | hpos
  · rw [← h0, roundMag_zero]
    exact roundMag_nonneg p emin (le_trans hx h)
  · have hy : 0 < y := lt_of_lt_of_le hpos h
    have hlog := floorLog2_mono hpos h
    rcases eq_or_lt_of_le (max_le_max hlog (le_refl emin)) with heq | hlt
    · unfold roundMag
      simp only []
      rw [heq]
      have h2 : (0 : ℚ) < (2 : ℚ) ^ (max (floorLog2 y) emin - ((p : ℤ) - 1)) := by positivity
      have : roundHalfEven (x / (2 : ℚ) ^ (max (floorLog2 y) emin - ((p : ℤ) - 1))) ≤
          roundHalfEven (y / (2 : ℚ) ^ (max (floorLog2 y) emin - ((p : ℤ) - 1))) :=
        roundHalfEven_mono (div_le_div_of_nonneg_right h h2.le)
      have hc : (roundHalfEven (x / (2 : ℚ) ^ (max (floorLog2 y) emin - ((p : ℤ) - 1))) : ℚ) ≤
          (roundHalfEven (y / (2 : ℚ) ^ (max (floorLog2 y) emin - ((p : ℤ) - 1))) : ℚ) := by
        exact_mod_cast this
      exact mul_le_mul_of_nonneg_right hc h2.le
    · have hey : emin ≤ floorLog2 y := by
        by_contra hc
        push_neg at hc
        rw [max_eq_right hc.le] at hlt
        have := le_max_right (floorLog2 x) emin
        omega
      have hmax : max (floorLog2 y) emin = floorLog2 y := max_eq_left hey
      rw [hmax] at hlt
      calc roundMag p emin x ≤ (2 : ℚ) ^ (max (floorLog2 x) emin + 1) := roundMag_upper p emin hpos
        _ ≤ (2 : ℚ) ^ floorLog2 y := zpow_le_zpow_right₀ (by norm_num) (by omega)
        _ ≤ roundMag p emin y := roundMag_lower p emin hp hy hey

theorem roundFloat_mono (p : ℕ) (emin : ℤ) (hp : 1 ≤ p) {x y : ℚ} (h : x ≤ y) :
    roundFloat p emin x ≤ roundFloat p emin y := by
  unfold roundFloat
  by_cases hx : x.num < 0 <;> by_cases hy : y.num < 0
  · simp only [hx, hy, if_true]
    have hy' : y < 0 := Rat.num_neg.mp hy
    exact neg_le_neg (roundMag_mono p emin hp (by linarith) (by linarith))
  · simp only [hx, hy, if_true, if_false]
    have hx' : x < 0 := Rat.num_neg.mp hx
    have hy' : 0 ≤ y := by
      rw [← Rat.num_nonneg]; omega
    have h1 := roundMag_nonneg p emin (x := -x) (by linarith)
    have h2 := roundMag_nonneg p emin hy'
    linarith
  · exfalso
    have hy' : y < 0 := Rat.num_neg.mp hy
    have hx' : 0 ≤ x := by
      rw [← Rat.num_nonneg]; omega
    linarith
  · simp only [hx, hy, if_false]
    have hx' : 0 ≤ x := by
      rw [← Rat.num_nonneg]; omega
    exact roundMag_mono p emin hp hx' h

theorem rnd_mono {x y : ℚ} (h : x ≤ y) : rnd x ≤ rnd y :=
  roundFloat_mono 53 (-1022) (by norm_num) h

/-- In the normal range the rounding error of a `double` operation is at most `2^-53`
relative to the exact value. -/
theorem rnd_relative {x : ℚ} (hx : (2 : ℚ) ^ (-1022 : ℤ) ≤ x) :
    x * (1 - (2 : ℚ) ^ (-53 : ℤ)) ≤ rnd x ∧ rnd x ≤ x * (1 + (2 : ℚ) ^ (-53 : ℤ)) := by
  have hpos : 0 < x := lt_of_lt_of_le (by positivity) hx
  have he : (-1022 : ℤ) ≤ floorLog2 x := floorLog2_ge hx
  have hnum : ¬ x.num < 0 := by
    have := Rat.num_nonneg.mpr hpos.le
    omega
  obtain ⟨hlo, hhi⟩ := roundMag_near 53 (-1022) x
  rw [max_eq_left he] at hlo hhi
  have hulp : (2 : ℚ) ^ (floorLog2 x - (((53 : ℕ) : ℤ) - 1)) / 2 ≤ x * (2 : ℚ) ^ (-53 : ℤ) := by
    have h1 := (floorLog2_spec x hpos).1
    have : (2 : ℚ) ^ (floorLog2 x - (((53 : ℕ) : ℤ) - 1)) / 2 =
        (2 : ℚ) ^ floorLog2 x * (2 : ℚ) ^ (-53 : ℤ) := by
      rw [← zpow_add₀ (by norm_num)]
      rw [div_eq_iff (by norm_num)]
      nth_rewrite 3 [← zpow_one (2 : ℚ)]
      rw [← zpow_add₀ (by norm_num)]
      congr 1
      push_cast
      ring
    rw [this]
    exact mul_le_mul_of_nonneg_right h1 (by positivity)
  unfold rnd roundFloat
  simp only [hnum, if_false]
  generalize (2 : ℚ) ^ (floorLog2 x - (((53 : ℕ) : ℤ) - 1)) / 2 = ulp at hlo hhi hulp
  generalize (2 : ℚ) ^ (-53 : ℤ) = c at hulp ⊢
  constructor
  · have : x * (1 - c) = x - x * c := by ring
    linarith
  · have : x * (1 + c) = x + x * c := by ring
    linarith

/-! ## Packet planner -/

theorem truncToInt_of_nonneg {x : ℚ} (hx : 0 ≤ x) : truncToInt x = ⌊x⌋ := by
  unfold truncToInt
  rw [Rat.floor_def, Int.tdiv_eq_ediv (Rat.num_nonneg.mpr hx) (by positivity)]

theorem rnd_zero : rnd 0 = 0 := by decide!

theorem rnd_two_pow_31 : rnd (2 ^ 31) = 2 ^ 31 := by decide!

/-- C1, counterexample: with the exact quotient the formula fails.  At 60 Hz (interval
16.666666666666668 ms, at least 1) and `d = 50` the exact quotient is just below 3, its floor
is 2 and `50 % 16 = 2`, so the formula gives 3, but the `double` quotient is exactly 3 and the
code returns 4; at 75 Hz and `d = 1000` the formula gives 75 and the code returns 76.  For
the interval `2^31` the conversion to `long` on line 36 has no defined result. -/
theorem packets_exact_floor_fails :
    (1 : ℚ) ≤ InjectionIntervalInMsFromFrequency 60 ∧
    CalculatePacketsNeeded 50 (InjectionIntervalInMsFromFrequency 60) = .ok 4 ∧
    ⌊((50 : ℤ) : ℚ) / InjectionIntervalInMsFromFrequency 60⌋ = 2 ∧
    (50 : ℤ) % ⌊InjectionIntervalInMsFromFrequency 60⌋ = 2 ∧
    ¬ (CalculatePacketsNeeded 50 (InjectionIntervalInMsFromFrequency 60) =
        .ok (⌊((50 : ℤ) : ℚ) / InjectionIntervalInMsFromFrequency 60⌋.toNat +
          if (50 : ℤ) % ⌊InjectionIntervalInMsFromFrequency 60⌋ ≠ 0 then 1 else 0)) ∧
    CalculatePacketsNeeded 1000 (InjectionIntervalInMsFromFrequency 75) = .ok 76 ∧
    ⌊((1000 : ℤ) : ℚ) / InjectionIntervalInMsFromFrequency 75⌋ = 74 ∧
    (1000 : ℤ) % ⌊InjectionIntervalInMsFromFrequency 75⌋ = 12 ∧
    CalculatePacketsNeeded 1 (2 ^ 31) = .error Fault.castOutOfRange := by
  decide!

/-- C1, as amended: for every duration `0 ≤ d` and every interval `1 ≤ v` (`d` a `long`, and
`v` below `2^31` so that its conversion to `long` on line 36 is defined),
`CalculatePacketsNeeded d v` is the integer part of the quotient `d / v` as rounded to
`double`, plus one exactly when the remainder of `d` by the integer part of `v` is not zero;
and `CalculatePacketsNeeded 1000 16` is 63. -/
theorem packets_formula (d : ℤ) (v : ℚ) (hd0 : 0 ≤ d) (hd : d < 2 ^ 31) (hv1 : 1 ≤ v)
    (hv : v < 2 ^ 31) :
    CalculatePacketsNeeded d v =
        .ok (⌊rnd ((d : ℚ) / v)⌋.toNat + if d % ⌊v⌋ ≠ 0 then 1 else 0) ∧
      CalculatePacketsNeeded 1000 16 = .ok 63 := by
  refine ⟨?_, by decide!⟩
  have hv0 : (0 : ℚ) < v := by linarith
  have hdq : (0 : ℚ) ≤ (d : ℚ) := by exact_mod_cast hd0
  have hq0 : (0 : ℚ) ≤ (d : ℚ) / v := div_nonneg hdq hv0.le
  have hqd : (d : ℚ) / v ≤ 2 ^ 31 := by
    have h1 : (d : ℚ) / v ≤ d := div_le_self hdq hv1
    have h2 : (d : ℚ) < 2 ^ 31 := by exact_mod_cast hd
    linarith
  have hr0 : 0 ≤ rnd ((d : ℚ) / v) := by
    have := rnd_mono hq0
    rwa [rnd_zero] at this
  have hr1 : rnd ((d : ℚ) / v) ≤ 2 ^ 31 := by
    have := rnd_mono hqd
    rwa [rnd_two_pow_31] at this
  have hf0 : 0 ≤ ⌊rnd ((d : ℚ) / v)⌋ := Int.floor_nonneg.mpr hr0
  have hf1 : ⌊rnd ((d : ℚ) / v)⌋ ≤ 2 ^ 31 := by
    have : (⌊rnd ((d : ℚ) / v)⌋ : ℚ) ≤ ((2 ^ 31 : ℤ) : ℚ) := by
      push_cast
      exact le_trans (Int.floor_le _) hr1
    exact_mod_cast this
  have hw1 : 1 ≤ ⌊v⌋ := Int.le_floor.mpr (by simpa using hv1)
  have hw2 : ⌊v⌋ < 2 ^ 31 := Int.floor_lt.mpr (by simpa using hv)
  have hcast1 : castUnsigned 32 (rnd ((d : ℚ) / v)) = .ok ⌊rnd ((d : ℚ) / v)⌋.toNat := by
    unfold castUnsigned
    simp only [truncToInt_of_nonneg hr0]
    rw [if_pos ⟨hf0, by omega⟩]
  have hcast2 : castSigned 32 v = .ok ⌊v⌋ := by
    unfold castSigned
    simp only [truncToInt_of_nonneg hv0.le]
    rw [if_pos ⟨by omega, by simpa using hw2⟩]
  have hmod : Int.tmod d ⌊v⌋ = d % ⌊v⌋ := Int.tmod_eq_emod hd0 (by omega)
  unfold CalculatePacketsNeeded
  rw [if_neg hv0.ne']
  simp only [hcast1, hcast2, hmod]
  rw [if_neg (by omega)]
  by_cases hrem : d % ⌊v⌋ = 0
  · simp [hrem]
  · simp only [ne_eq, hrem, not_false_eq_true, if_true]
    congr 1
    apply Nat.mod_eq_of_lt
    have : (⌊rnd ((d : ℚ) / v)⌋.toNat : ℤ) ≤ 2 ^ 31 := by
      rw [Int.toNat_of_nonneg hf0]; exact hf1
    omega

/-- C1, witness: at 60 frames per second (interval 16.666... ms) a duration of 50 ms, where
the rounded quotient is 3 and the count 4. -/
theorem packets_formula_witness :
    (0 : ℤ) ≤ 50 ∧ (50 : ℤ) < 2 ^ 31 ∧ (1 : ℚ) ≤ InjectionIntervalInMsFromFrequency 60 ∧
    InjectionIntervalInMsFromFrequency 60 < 2 ^ 31 ∧
    (CalculatePacketsNeeded 50 (InjectionIntervalInMsFromFrequency 60) =
        .ok (⌊rnd (((50 : ℤ) : ℚ) / InjectionIntervalInMsFromFrequency 60)⌋.toNat +
          if (50 : ℤ) % ⌊InjectionIntervalInMsFromFrequency 60⌋ ≠ 0 then 1 else 0) ∧
      CalculatePacketsNeeded 1000 16 = .ok 63) :=
  ⟨by decide, by decide, by decide!, by decide!,
    packets_formula 50 (InjectionIntervalInMsFromFrequency 60) (by decide) (by decide)
      (by decide!) (by decide!)⟩

/-- C2, failing input: at 120 Hz the interval is 8.33... ms and for the default duration of
1000 ms the code plans 119 packets, which span less than 1000 ms (the remainder is taken
against the interval truncated to 8, and 1000 = 125 * 8, so nothing is added); at 75 Hz it
plans 76 packets although 75 intervals already span 1000 ms.  A run of `main` with
`frequency 120` injects the down event, 119 moves and the up event. -/
theorem packets_not_least_cover :
    CalculatePacketsNeeded 1000 (InjectionIntervalInMsFromFrequency 120) = .ok 119 ∧
    (119 : ℚ) * InjectionIntervalInMsFromFrequency 120 < 1000 ∧
    CalculatePacketsNeeded 1000 (InjectionIntervalInMsFromFrequency 75) = .ok 76 ∧
    (1000 : ℚ) ≤ 75 * InjectionIntervalInMsFromFrequency 75 ∧
    (main { frequency := 120 } steadySystem120).2 = Outcome.returned 0 ∧
    (injected (main { frequency := 120 } steadySystem120).1).length = 1 + 119 + 1 := by
  decide!

/-- C3, failing input: at 120 Hz a duration of 999 ms (the `duration_in_ms` of
`duration 0.999`) gets 120 packets and the longer duration of 1000 ms gets 119; at 60 Hz,
31 ms gets two packets and 32 ms gets one. -/
theorem packets_not_monotone :
    castSigned 32 (rndf (rndf (999 / 1000) * (MS_PER_SEC : ℚ))) = .ok 999 ∧
    CalculatePacketsNeeded 999 (InjectionIntervalInMsFromFrequency 120) = .ok 120 ∧
    CalculatePacketsNeeded 1000 (InjectionIntervalInMsFromFrequency 120) = .ok 119 ∧
    CalculatePacketsNeeded 31 (InjectionIntervalInMsFromFrequency 60) = .ok 2 ∧
    CalculatePacketsNeeded 32 (InjectionIntervalInMsFromFrequency 60) = .ok 1 := by
  decide!

/-- C4, failing input: at 2000 Hz the interval is 0.5 ms, its conversion to `long` is 0, and
`CalculatePacketsNeeded` takes a remainder by zero; a run of `main` with `frequency 2000`
ends there. -/
theorem remainder_by_zero_2000Hz :
    InjectionIntervalInMsFromFrequency 2000 = 1 / 2 ∧
    castSigned 32 (InjectionIntervalInMsFromFrequency 2000) = .ok 0 ∧
    CalculatePacketsNeeded 1000 (InjectionIntervalInMsFromFrequency 2000)
      = .error Fault.remainderByZero ∧
    (main { frequency := 2000 } steadySystem).2 = Outcome.undefined Fault.remainderByZero := by
  decide!

/-! ## Injection clock -/

theorem injectPointer_later (interval t : ℕ) (c : POINTER_TOUCH_INFO) (counter : List ℕ)
    (r : POINTER_TOUCH_INFO × ℕ × List ℕ)
    (hc : c.pointerFlags &&& POINTER_FLAG_DOWN = 0)
    (h : InjectPointer interval t c counter = some r) :
    r.1.PerformanceCount = (t + interval) % 2 ^ 64 ∧ r.2.1 = (t + interval) % 2 ^ 64 := by
  unfold InjectPointer at h
  cases counter with
  | nil => simp at h
  | cons now rest =>
    simp only [hc, ne_eq, not_true_eq_false, if_false] at h
    cases hb : busyWait t interval now rest with
    | none => simp [hb] at h
    | some rest' =>
      simp only [hb, Option.some.injEq] at h
      subst h
      simp

theorem injectAll_later (interval : ℕ) :
    ∀ (later : List POINTER_TOUCH_INFO) (t : ℕ) (counter : List ℕ)
      (out : List POINTER_TOUCH_INFO),
      (∀ c ∈ later, c.pointerFlags &&& POINTER_FLAG_DOWN = 0) →
      injectAll interval t later counter = some out →
      out.length = later.length ∧
      ∀ k, k < later.length →
        out[k]?.map (fun c => c.PerformanceCount) = some ((t + (k + 1) * interval) % 2 ^ 64) := by
  intro later
  induction later with
  | nil =>
    intro t counter out _ h
    simp [injectAll] at h
    subst h
    simp
  | cons c cs ih =>
    intro t counter out hflags h
    simp only [injectAll] at h
    cases hi : InjectPointer interval t c counter with
    | none => simp [hi] at h
    | some r =>
      obtain ⟨c', t', counter'⟩ := r
      simp only [hi] at h
      cases hrest : injectAll interval t' cs counter' with
      | none => simp [hrest] at h
      | some outs =>
        simp only [hrest, Option.some.injEq] at h
        subst h
        have hstep := injectPointer_later interval t c counter _
          (hflags c (List.mem_cons_self _ _)) hi
        simp only at hstep
        have htail := ih t' counter' outs
          (fun d hd => hflags d (List.mem_cons_of_mem _ hd)) hrest
        refine ⟨by simp [htail.1], ?_⟩
        intro k hk
        cases k with
        | zero => simpa using hstep.1
        | succ k =>
          have hk' : k < cs.length := by simpa using hk
          have := htail.2 k hk'
          simp only [List.getElem?_cons_succ]
          rw [this, hstep.2, Nat.mod_add_mod]
          congr 2
          ring

/-- C5: when a packet with the down flag and then further packets without it (the moves and
the up of `main`) go through `InjectPointer`, the down packet is stamped `T0`, the counter
reading taken on entry, and the `k`-th packet after it is stamped `T0 + k * interval` in
64-bit unsigned arithmetic, whatever readings the busy-waits observed. -/
theorem stamps_advance_by_fixed_interval (interval t : ℕ) (down : POINTER_TOUCH_INFO)
    (later : List POINTER_TOUCH_INFO) (counter : List ℕ) (out : List POINTER_TOUCH_INFO)
    (hdown : down.pointerFlags &&& POINTER_FLAG_DOWN ≠ 0)
    (hlater : ∀ c ∈ later, c.pointerFlags &&& POINTER_FLAG_DOWN = 0)
    (hrun : injectAll interval t (down :: later) counter = some out) :
    ∃ T0, counter.head?.map (fun now => now % 2 ^ 64) = some T0 ∧
      out.length = later.length + 1 ∧
      out[0]?.map (fun c => c.PerformanceCount) = some T0 ∧
      ∀ k, 1 ≤ k → k ≤ later.length →
        out[k]?.map (fun c => c.PerformanceCount) = some ((T0 + k * interval) % 2 ^ 64) := by
  simp only [injectAll] at hrun
  cases counter with
  | nil => simp [InjectPointer] at hrun
  | cons now rest =>
    refine ⟨now % 2 ^ 64, rfl, ?_⟩
    simp only [InjectPointer, hdown, ne_eq, not_false_eq_true, if_true] at hrun
    cases hrest : injectAll interval (now % 2 ^ 64) later rest with
    | none => rw [hrest] at hrun; simp at hrun
    | some outs =>
      simp only [hrest, Option.some.injEq] at hrun
      subst hrun
      have htail := injectAll_later interval later (now % 2 ^ 64) rest outs hlater hrest
      refine ⟨by simp [htail.1], by simp, ?_⟩
      intro k hk1 hk
      obtain ⟨j, rfl⟩ : ∃ j, k = j + 1 := ⟨k - 1, by omega⟩
      simp only [List.getElem?_cons_succ]
      rw [htail.2 j (by omega)]

/-- C5, witness: with 100000 counts per interval, a down packet read at 1000, a move whose
busy-wait sees 50000, 90000 and 250000, and an up read at 600000 are stamped 1000, 101000
and 201000.  The flags are those set by `SendPointerDown`, `SendPointerMove` and
`SendPointerUp`. -/
theorem stamps_advance_by_fixed_interval_witness :
    ((POINTER_FLAG_DOWN ||| POINTER_FLAG_INRANGE ||| POINTER_FLAG_INCONTACT)
      &&& POINTER_FLAG_DOWN ≠ 0) ∧
    (∀ c ∈ [(⟨POINTER_FLAG_UPDATE ||| POINTER_FLAG_INRANGE ||| POINTER_FLAG_INCONTACT,
          100, 595, 598, 597, 98, 597, 0⟩ : POINTER_TOUCH_INFO),
        ⟨POINTER_FLAG_UP, 100, 595, 598, 597, 98, 597, 0⟩],
      c.pointerFlags &&& POINTER_FLAG_DOWN = 0) ∧
    ∃ T0, [1000, 50000, 90000, 250000, 600000].head?.map (fun now => now % 2 ^ 64) = some T0 ∧
      [(⟨65542, 100, 600, 598, 602, 98, 102, 1000⟩ : POINTER_TOUCH_INFO),
        ⟨131078, 100, 595, 598, 597, 98, 597, 101000⟩,
        ⟨262144, 100, 595, 598, 597, 98, 597, 201000⟩].length = 2 + 1 ∧
      [(⟨65542, 100, 600, 598, 602, 98, 102, 1000⟩ : POINTER_TOUCH_INFO),
        ⟨131078, 100, 595, 598, 597, 98, 597, 101000⟩,
        ⟨262144, 100, 595, 598, 597, 98, 597, 201000⟩][0]?.map (fun c => c.PerformanceCount)
        = some T0 ∧
      ∀ k, 1 ≤ k → k ≤ 2 →
        [(⟨65542, 100, 600, 598, 602, 98, 102, 1000⟩ : POINTER_TOUCH_INFO),
          ⟨131078, 100, 595, 598, 597, 98, 597, 101000⟩,
          ⟨262144, 100, 595, 598, 597, 98, 597, 201000⟩][k]?.map (fun c => c.PerformanceCount)
          = some ((T0 + k * 100000) % 2 ^ 64) :=
  ⟨by decide, by decide,
    stamps_advance_by_fixed_interval 100000 0
      ⟨POINTER_FLAG_DOWN ||| POINTER_FLAG_INRANGE ||| POINTER_FLAG_INCONTACT,
        100, 600, 598, 602, 98, 102, 0⟩
      [⟨POINTER_FLAG_UPDATE ||| POINTER_FLAG_INRANGE ||| POINTER_FLAG_INCONTACT,
          100, 595, 598, 597, 98, 597, 0⟩,
        ⟨POINTER_FLAG_UP, 100, 595, 598, 597, 98, 597, 0⟩]
      [1000, 50000, 90000, 250000, 600000]
      [⟨65542, 100, 600, 598, 602, 98, 102, 1000⟩,
        ⟨131078, 100, 595, 598, 597, 98, 597, 101000⟩,
        ⟨262144, 100, 595, 598, 597, 98, 597, 201000⟩]
      (by decide) (by decide) (by decide)⟩

/-- C10, failing input: with a counter of 3579545 ticks per second and 100 Hz the interval is
10 ms, which is 35795 ticks, but the code stores 30000: the integer quotient
`qpc_frequency / US_PER_SEC` drops the fraction of a tick per microsecond.  With 14318180
ticks per second it stores 140000 for 143181 ticks. -/
theorem qpc_interval_truncated :
    InjectionIntervalInMsFromFrequency 100 = 10 ∧
    injection_interval_in_qpc_units (InjectionIntervalInMsFromFrequency 100) 3579545
      = .ok 30000 ∧
    truncToInt (InjectionIntervalInMsFromFrequency 100 * 3579545 / 1000) = 35795 ∧
    injection_interval_in_qpc_units (InjectionIntervalInMsFromFrequency 100) 14318180
      = .ok 140000 ∧
    truncToInt (InjectionIntervalInMsFromFrequency 100 * 14318180 / 1000) = 143181 := by
  decide!

/-! ## Gesture driver -/

/-- The factor `1.0f * (ratio - 1) + 1` of line 251 is monotone in `ratio`. -/
theorem accelFactor_mono {a b : ℚ} (h : a ≤ b) :
    rnd (rnd (1 * rnd (a - 1)) + 1) ≤ rnd (rnd (1 * rnd (b - 1)) + 1) := by
  apply rnd_mono
  have h1 : rnd (a - 1) ≤ rnd (b - 1) := rnd_mono (by linarith)
  have h2 : rnd (1 * rnd (a - 1)) ≤ rnd (1 * rnd (b - 1)) := rnd_mono (by linarith)
  linarith

theorem accelFactor_low :
    rnd (rnd (1 * rnd ((2 : ℚ) ^ (-32 : ℤ) - 1)) + 1) = (2 : ℚ) ^ (-32 : ℤ) := by
  decide!

theorem rnd_low : rnd ((2 : ℚ) ^ (-32 : ℤ)) = (2 : ℚ) ^ (-32 : ℤ) := by decide!

theorem rnd_one : rnd 1 = 1 := by decide!

theorem accel_end : rnd (1 * rnd (rnd (1 * rnd ((1 : ℚ) - 1)) + 1)) = 1 := by decide!

theorem tick_fraction_bounds {i n : ℕ} (hi : 1 ≤ i) (hin : i ≤ n) (hn : n < 2 ^ 32) :
    (2 : ℚ) ^ (-32 : ℤ) ≤ (i : ℚ) / (n : ℚ) ∧ (i : ℚ) / (n : ℚ) ≤ 1 := by
  have hn0 : (0 : ℚ) < (n : ℚ) := by exact_mod_cast (by omega : 0 < n)
  have hi1 : (1 : ℚ) ≤ (i : ℚ) := by exact_mod_cast hi
  have hin' : (i : ℚ) ≤ (n : ℚ) := by exact_mod_cast hin
  have hn' : (n : ℚ) ≤ 2 ^ 32 := by exact_mod_cast hn.le
  constructor
  · rw [le_div_iff₀ hn0]
    have : (2 : ℚ) ^ (-32 : ℤ) = 1 / 2 ^ 32 := by norm_num
    rw [this]
    calc (1 : ℚ) / 2 ^ 32 * n ≤ 1 / 2 ^ 32 * 2 ^ 32 := by gcongr
      _ = 1 := by norm_num
      _ ≤ i := hi1
  · rw [div_le_one hn0]
    exact hin'

/-- C7: with acceleration, for every packet count `1 ≤ packets < 2^32` the ratio of the move
loop is strictly increasing over the ticks `1 .. packets` and is exactly 1 at the last tick,
every operation being the rounded `double` operation of the source. -/
theorem accelerated_ratio_increasing (packets : ℕ) (h1 : 1 ≤ packets) (h2 : packets < 2 ^ 32) :
    (∀ i j, 1 ≤ i → i < j → j ≤ packets →
      tickRatio true i packets < tickRatio true j packets) ∧
    tickRatio true packets packets = 1 := by
  have hn0 : (0 : ℚ) < (packets : ℚ) := by exact_mod_cast (by omega : 0 < packets)
  constructor
  · intro i j hi hij hj
    obtain ⟨hilo, -⟩ := tick_fraction_bounds hi (by omega : i ≤ packets) h2
    obtain ⟨hjlo, -⟩ := tick_fraction_bounds (by omega : 1 ≤ j) hj h2
    have hsmall : (2 : ℚ) ^ (-1022 : ℤ) ≤ (2 : ℚ) ^ (-64 : ℤ) :=
      zpow_le_zpow_right₀ (by norm_num) (by norm_num)
    have hsmall' : (2 : ℚ) ^ (-64 : ℤ) ≤ (2 : ℚ) ^ (-32 : ℤ) :=
      zpow_le_zpow_right₀ (by norm_num) (by norm_num)
    have hprod : (2 : ℚ) ^ (-64 : ℤ) = (2 : ℚ) ^ (-32 : ℤ) * (2 : ℚ) ^ (-32 : ℤ) := by
      rw [← zpow_add₀ (by norm_num)]; norm_num
    have hlow0 : (0 : ℚ) < (2 : ℚ) ^ (-32 : ℤ) := by positivity
    -- the rounded quotients
    set ki : ℚ := (i : ℚ) / (packets : ℚ) with hki
    set kj : ℚ := (j : ℚ) / (packets : ℚ) with hkj
    have hkij : ki ≤ kj := by
      rw [hki, hkj]
      exact div_le_div_of_nonneg_right (by exact_mod_cast hij.le) hn0.le
    obtain ⟨-, hai_hi⟩ := rnd_relative (le_trans (le_trans hsmall hsmall') hilo)
    obtain ⟨haj_lo, -⟩ := rnd_relative (le_trans (le_trans hsmall hsmall') hjlo)
    have hai_lo : (2 : ℚ) ^ (-32 : ℤ) ≤ rnd ki := by
      have := rnd_mono hilo
      rwa [rnd_low] at this
    have haj_ge : (2 : ℚ) ^ (-32 : ℤ) ≤ rnd kj := by
      have := rnd_mono hjlo
      rwa [rnd_low] at this
    have haij : rnd ki ≤ rnd kj := rnd_mono hkij
    -- the factors
    have hwi_lo : (2 : ℚ) ^ (-32 : ℤ) ≤ rnd (rnd (1 * rnd (rnd ki - 1)) + 1) := by
      have := accelFactor_mono hai_lo
      rwa [accelFactor_low] at this
    have hwij : rnd (rnd (1 * rnd (rnd ki - 1)) + 1) ≤ rnd (rnd (1 * rnd (rnd kj - 1)) + 1) :=
      accelFactor_mono haij
    set ai := rnd ki with hai
    set aj := rnd kj with haj
    set wi := rnd (rnd (1 * rnd (ai - 1)) + 1) with hwi
    set wj := rnd (rnd (1 * rnd (aj - 1)) + 1) with hwj
    have hwi0 : 0 < wi := lt_of_lt_of_le hlow0 hwi_lo
    have hai0 : 0 < ai := lt_of_lt_of_le hlow0 hai_lo
    have haj0 : 0 < aj := lt_of_lt_of_le hlow0 haj_ge
    -- the products are in the normal range
    have hX : (2 : ℚ) ^ (-1022 : ℤ) ≤ ai * wi := by
      refine le_trans hsmall ?_
      rw [hprod]
      exact mul_le_mul hai_lo hwi_lo hlow0.le hai0.le
    have hY : (2 : ℚ) ^ (-1022 : ℤ) ≤ aj * wj := by
      refine le_trans hsmall ?_
      rw [hprod]
      exact mul_le_mul haj_ge (le_trans hwi_lo hwij) hlow0.le haj0.le
    obtain ⟨-, hrX⟩ := rnd_relative hX
    obtain ⟨hrY, -⟩ := rnd_relative hY
    -- the gap between consecutive quotients dominates the rounding errors
    have hgap : ki * (1 + 1 / 2 ^ 32) ≤ kj := by
      rw [hki, hkj, div_mul_eq_mul_div, div_le_div_iff_of_pos_right hn0]
      have hi' : (i : ℚ) ≤ 2 ^ 32 := by exact_mod_cast (by omega : i ≤ 2 ^ 32)
      have hij' : (i : ℚ) + 1 ≤ (j : ℚ) := by exact_mod_cast hij
      have : (i : ℚ) * (1 / 2 ^ 32) ≤ 1 := by
        calc (i : ℚ) * (1 / 2 ^ 32) ≤ 2 ^ 32 * (1 / 2 ^ 32) := by gcongr
          _ = 1 := by norm_num
      linarith
    have hki0 : 0 < ki := lt_of_lt_of_le hlow0 hilo
    have hu : (2 : ℚ) ^ (-53 : ℤ) = 1 / 2 ^ 53 := by norm_num
    rw [hu] at hai_hi haj_lo hrX hrY
    show rnd (ai * wi) < rnd (aj * wj)
    have e1 : ai * wi * (1 + 1 / 2 ^ 53) ≤ ki * (1 + 1 / 2 ^ 53) * wi * (1 + 1 / 2 ^ 53) := by
      have := mul_le_mul_of_nonneg_right hai_hi hwi0.le
      exact mul_le_mul_of_nonneg_right this (by norm_num)
    have e2 : kj * (1 - 1 / 2 ^ 53) * wi * (1 - 1 / 2 ^ 53) ≤ aj * wj * (1 - 1 / 2 ^ 53) := by
      have a1 : kj * (1 - 1 / 2 ^ 53) * wi ≤ aj * wi := mul_le_mul_of_nonneg_right haj_lo hwi0.le
      have a2 : aj * wi ≤ aj * wj := mul_le_mul_of_nonneg_left hwij haj0.le
      exact mul_le_mul_of_nonneg_right (le_trans a1 a2) (by norm_num)
    have e3 : ki * (1 + 1 / 2 ^ 53) * wi * (1 + 1 / 2 ^ 53) <
        kj * (1 - 1 / 2 ^ 53) * wi * (1 - 1 / 2 ^ 53) := by
      have hc : (1 + 1 / 2 ^ 53 : ℚ) * (1 + 1 / 2 ^ 53) <
          (1 + 1 / 2 ^ 32) * ((1 - 1 / 2 ^ 53) * (1 - 1 / 2 ^ 53)) := by norm_num
      have hkw : 0 < ki * wi := mul_pos hki0 hwi0
      have s1 : ki * (1 + 1 / 2 ^ 53) * wi * (1 + 1 / 2 ^ 53) =
          (ki * wi) * ((1 + 1 / 2 ^ 53) * (1 + 1 / 2 ^ 53)) := by ring
      have s2 : kj * (1 - 1 / 2 ^ 53) * wi * (1 - 1 / 2 ^ 53) =
          (kj * wi) * ((1 - 1 / 2 ^ 53) * (1 - 1 / 2 ^ 53)) := by ring
      rw [s1, s2]
      calc (ki * wi) * ((1 + 1 / 2 ^ 53) * (1 + 1 / 2 ^ 53))
          < (ki * wi) * ((1 + 1 / 2 ^ 32) * ((1 - 1 / 2 ^ 53) * (1 - 1 / 2 ^ 53))) :=
            mul_lt_mul_of_pos_left hc hkw
        _ = (ki * (1 + 1 / 2 ^ 32) * wi) * ((1 - 1 / 2 ^ 53) * (1 - 1 / 2 ^ 53)) := by ring
        _ ≤ (kj * wi) * ((1 - 1 / 2 ^ 53) * (1 - 1 / 2 ^ 53)) := by
            apply mul_le_mul_of_nonneg_right _ (by norm_num)
            exact mul_le_mul_of_nonneg_right hgap hwi0.le
    linarith
  · unfold tickRatio
    simp only [if_true]
    rw [div_self hn0.ne', rnd_one]
    exact accel_end

/-- C7, witness: three packets. -/
theorem accelerated_ratio_increasing_witness :
    1 ≤ 3 ∧ 3 < 2 ^ 32 ∧
    ((∀ i j, 1 ≤ i → i < j → j ≤ 3 → tickRatio true i 3 < tickRatio true j 3) ∧
      tickRatio true 3 3 = 1) :=
  ⟨by decide, by decide, accelerated_ratio_increasing 3 (by decide) (by decide)⟩

theorem injectPointer_contact {interval t : ℕ} {c : POINTER_TOUCH_INFO} {counter : List ℕ}
    {r : POINTER_TOUCH_INFO × ℕ × List ℕ} (h : InjectPointer interval t c counter = some r) :
    r.1 = { c with PerformanceCount := r.2.1 } := by
  unfold InjectPointer at h
  cases counter with
  | nil => simp at h
  | cons now rest =>
    by_cases hc : c.pointerFlags &&& POINTER_FLAG_DOWN ≠ 0
    · simp only [] at h
      rw [if_pos hc, Option.some.injEq] at h
      subst h
      rfl
    · simp only [] at h
      rw [if_neg hc] at h
      cases hb : busyWait t interval now rest with
      | none => simp [hb] at h
      | some rest' =>
        simp only [hb, Option.some.injEq] at h
        subst h
        rfl

/-- The moves injected by a completed move loop: one for each tick from `i` to `packets`, at
the interpolated height, all at the horizontal position the loop was entered with. -/
theorem moveLoop_injected (acceleration : Bool) (starty endy : ℤ) (packets interval : ℕ)
    (f : ℕ → ℤ) (hp : packets < 2 ^ 32 - 1)
    (hf : ∀ k, 1 ≤ k → k ≤ packets →
      Interpolate starty endy (tickRatio acceleration k packets) = .ok (f k)) :
    ∀ (waits : List Bool) (i : ℕ) (contact : POINTER_TOUCH_INFO) (t : ℕ) (counter : List ℕ)
      (calls : List Call) (d : Driver), 1 ≤ i → i ≤ packets + 1 →
      moveLoop acceleration starty endy packets interval i contact t counter waits
        = (calls, .ok d) →
      (injected calls).map (fun c => (c.pointerFlags, c.x, c.y)) =
          (List.range' i (packets + 1 - i)).map
            (fun k => (POINTER_FLAG_UPDATE ||| POINTER_FLAG_INRANGE ||| POINTER_FLAG_INCONTACT,
              contact.x, f k)) ∧
        d.contact.x = contact.x ∧
        d.contact.y = (if i ≤ packets then f packets else contact.y) := by
  intro waits
  induction waits with
  | nil =>
    intro i contact t counter calls d hi1 hi2 h
    unfold moveLoop at h
    by_cases hle : i ≤ packets
    · simp [hle] at h
    · simp only [hle, if_false, Prod.mk.injEq, Except.ok.injEq] at h
      obtain ⟨h1, h2⟩ := h
      subst h1 h2
      have : packets + 1 - i = 0 := by omega
      simp [this, injected, hle]
  | cons w ws ih =>
    intro i contact t counter calls d hi1 hi2 h
    unfold moveLoop at h
    by_cases hle : i ≤ packets
    · simp only [hle, if_true] at h
      cases w with
      | false => simp at h
      | true =>
        simp only [Bool.true_eq_false, if_false, hf i hi1 hle] at h
        cases hs : SendPointerMove interval t
            { contact with y := f i, right := wrapLong (f i + 2), bottom := wrapLong (f i + 2) }
            counter with
        | none => simp [hs] at h
        | some r =>
          obtain ⟨sent, t', counter'⟩ := r
          simp only [hs, Prod.mk.injEq] at h
          obtain ⟨h1, h2⟩ := h
          have hsent := injectPointer_contact hs
          simp only at hsent
          have hmod : (i + 1) % 2 ^ 32 = i + 1 := Nat.mod_eq_of_lt (by omega)
          rw [hmod] at h1 h2
          obtain ⟨e1, e2, e3⟩ := ih (i + 1) sent t' counter' _ d (by omega) (by omega)
            (Prod.ext rfl h2)
          subst h1
          have hlen : packets + 1 - i = (packets + 1 - (i + 1)) + 1 := by omega
          rw [hlen, List.range'_succ]
          simp only [injected, List.map_cons, e1]
          refine ⟨?_, ?_, ?_⟩
          · rw [hsent]
          · rw [e2, hsent]
          · rw [e3, hsent]
            by_cases hlast : i + 1 ≤ packets
            · simp [hlast, hle]
            · have : i = packets := by omega
              simp [hlast, hle, this]
    · simp only [hle, if_false, Prod.mk.injEq, Except.ok.injEq] at h
      obtain ⟨h1, h2⟩ := h
      subst h1 h2
      have : packets + 1 - i = 0 := by omega
      simp [this, injected, hle]

theorem injected_append (a b : List Call) : injected (a ++ b) = injected a ++ injected b := by
  induction a with
  | nil => rfl
  | cons c cs ih => cases c <;> simp [injected, ih]

/-- The contacts injected by a single completed repetition: the down event at the start
position, the moves of the move loop, and an up event at the position of the last move. -/
theorem gestureLoop_single (acceleration : Bool) (startx starty endy : ℤ)
    (packets interval : ℕ) (segment_sleep : Except Fault ℕ) (f : ℕ → ℤ)
    (hp : packets < 2 ^ 32 - 1)
    (hf : ∀ k, 1 ≤ k → k ≤ packets →
      Interpolate starty endy (tickRatio acceleration k packets) = .ok (f k))
    (d d' : Driver) (calls : List Call)
    (h : gestureLoop acceleration 1 startx starty endy packets interval segment_sleep 1 d
      = (calls, .ok d')) :
    (injected calls).map (fun c => (c.pointerFlags, c.x, c.y)) =
      (POINTER_FLAG_DOWN ||| POINTER_FLAG_INRANGE ||| POINTER_FLAG_INCONTACT, startx, starty) ::
        (List.range' 1 packets).map
          (fun k => (POINTER_FLAG_UPDATE ||| POINTER_FLAG_INRANGE ||| POINTER_FLAG_INCONTACT,
            startx, f k)) ++
        [(POINTER_FLAG_UP, startx, if 1 ≤ packets then f packets else starty)] := by
  unfold gestureLoop at h
  simp only [] at h
  cases hdown : SendPointerDown interval d.injection_time
      { d.contact with
        x := startx, y := starty,
        top := wrapLong (starty - 2), bottom := wrapLong (starty + 2),
        left := wrapLong (startx - 2), right := wrapLong (startx + 2) } d.counter with
  | none => simp [hdown] at h
  | some r =>
    obtain ⟨down, t, counter⟩ := r
    have hd := injectPointer_contact hdown
    simp only at hd
    simp only [hdown] at h
    cases hm : moveLoop acceleration starty endy packets interval 1 down t counter d.waits with
    | mk moves res =>
      cases res with
      | error o => simp [hm] at h
      | ok d1 =>
        obtain ⟨m1, m2, m3⟩ := moveLoop_injected acceleration starty endy packets interval f hp hf
          d.waits 1 down t counter moves d1 le_rfl (by omega) hm
        simp only [hm] at h
        cases hup : SendPointerUp interval d1.injection_time d1.contact d1.counter with
        | none => simp [hup] at h
        | some r =>
          obtain ⟨up, t', counter'⟩ := r
          have hu := injectPointer_contact hup
          simp only at hu
          simp only [hup, ne_eq, not_true_eq_false, if_false, gestureLoop, Prod.mk.injEq,
            Except.ok.injEq] at h
          obtain ⟨h1, -⟩ := h
          subst h1
          simp only [List.append_eq, injected_append, injected, List.map_cons, List.map_append,
            List.map_nil, List.append_nil, m1, List.cons_append]
          have hx : down.x = startx := by rw [hd]
          have hy : down.y = starty := by rw [hd]
          have hfl : down.pointerFlags =
              POINTER_FLAG_DOWN ||| POINTER_FLAG_INRANGE ||| POINTER_FLAG_INCONTACT := by rw [hd]
          have hux : up.x = startx := by rw [hu]; simp only []; rw [m2, hx]
          have huy : up.y = if 1 ≤ packets then f packets else starty := by
            rw [hu]; simp only []; rw [m3, hy]
          have hufl : up.pointerFlags = POINTER_FLAG_UP := by rw [hu]
          rw [hx, hy, hfl, hux, huy, hufl]
          simp

theorem moveLoop_error (acceleration : Bool) (starty endy : ℤ) (packets interval : ℕ) :
    ∀ (waits : List Bool) (i : ℕ) (contact : POINTER_TOUCH_INFO) (t : ℕ) (counter : List ℕ)
      (calls : List Call) (o : Outcome),
      moveLoop acceleration starty endy packets interval i contact t counter waits
        = (calls, .error o) → o ≠ Outcome.returned 0 := by
  intro waits
  induction waits with
  | nil =>
    intro i contact t counter calls o h
    unfold moveLoop at h
    split at h
    · simp only [Prod.mk.injEq, Except.error.injEq] at h
      rw [← h.2]; simp
    · simp at h
  | cons w ws ih =>
    intro i contact t counter calls o h
    unfold moveLoop at h
    split at h
    · split at h
      · simp only [Prod.mk.injEq, Except.error.injEq] at h
        rw [← h.2]; simp
      · split at h
        · simp only [Prod.mk.injEq, Except.error.injEq] at h
          rw [← h.2]; simp
        · simp only [] at h
          split at h
          · simp only [Prod.mk.injEq, Except.error.injEq] at h
            rw [← h.2]; simp
          · simp only [Prod.mk.injEq] at h
            exact ih _ _ _ _ _ o (Prod.ext rfl h.2)
    · simp at h

theorem gestureLoop_error (acceleration : Bool) (repetitions startx starty endy : ℤ)
    (packets interval : ℕ) (segment_sleep : Except Fault ℕ) :
    ∀ (remaining : ℕ) (d : Driver) (calls : List Call) (o : Outcome),
      gestureLoop acceleration repetitions startx starty endy packets interval segment_sleep
        remaining d = (calls, .error o) → o ≠ Outcome.returned 0 := by
  intro remaining
  induction remaining with
  | zero =>
    intro d calls o h
    simp [gestureLoop] at h
  | succ n ih =>
    intro d calls o h
    unfold gestureLoop at h
    simp only [] at h
    split at h
    · simp only [Prod.mk.injEq, Except.error.injEq] at h
      rw [← h.2]; simp
    · split at h
      · rename_i hm
        simp only [Prod.mk.injEq, Except.error.injEq] at h
        rw [← h.2]
        exact moveLoop_error _ _ _ _ _ _ _ _ _ _ _ _ hm
      · split at h
        · simp only [Prod.mk.injEq, Except.error.injEq] at h
          rw [← h.2]; simp
        · split at h
          · split at h
            · simp only [Prod.mk.injEq, Except.error.injEq] at h
              rw [← h.2]; simp
            · simp only [Prod.mk.injEq] at h
              exact ih _ _ o (Prod.ext rfl h.2)
          · simp only [Prod.mk.injEq] at h
            exact ih _ _ o (Prod.ext rfl h.2)

theorem scenario_heights :
    ∀ k < 51, 1 ≤ k →
      Interpolate 200 100 (tickRatio false k 50) = .ok ((200 : ℤ) - 2 * (k : ℤ)) := by
  decide!

theorem scenario_setup :
    castSigned 32 (rndf (scenario.duration * (MS_PER_SEC : ℚ))) = .ok 1000 ∧
    InjectionIntervalInMsFromFrequency scenario.frequency = 20 ∧
    castUnsigned 32 (20 : ℚ) = .ok 20 ∧
    castSigned 64 (rnd ((20 : ℚ) * 10000)) = .ok 200000 ∧
    castSigned 32 (20 : ℚ) = .ok 20 ∧
    castUnsigned 32 (rndf (scenario.start_delay * (MS_PER_SEC : ℚ))) = .ok 1000 ∧
    CalculatePacketsNeeded 1000 20 = .ok 50 ∧
    wrapLong (100 + scenario.distance) = 200 := by
  decide!

/-- C6, counterexample: in the scenario the down event is injected at `y = 200`, not at 100. -/
theorem scenario_down_not_at_100 :
    ¬ ((injected (main scenario steadySystem).1)[0]?.map (fun c => c.y) = some 100) := by
  decide!

/-- C6, as amended: in the scenario the duration is 1000 ms, the interval 20 ms and the packet
count 50, the ratio is 0.5 at tick 25 and 1 at tick 50, and on every system on which the run
returns 0 the contacts injected are: a down event at `(100, 200)`, the move of tick `k` at
`(100, 200 - 2 k)` for `k = 1 .. 50` (so `y = 150` at tick 25 and `y = 100` at tick 50), and
an up event at `(100, 100)`, the position of the final move. -/
theorem scenario_positions (os : Script) (calls : List Call)
    (h : main scenario os = (calls, Outcome.returned 0)) :
    castSigned 32 (rndf (scenario.duration * (MS_PER_SEC : ℚ))) = .ok 1000 ∧
    InjectionIntervalInMsFromFrequency scenario.frequency = 20 ∧
    CalculatePacketsNeeded 1000 20 = .ok 50 ∧
    tickRatio false 25 50 = 1 / 2 ∧ tickRatio false 50 50 = 1 ∧
    (injected calls).map (fun c => (c.pointerFlags, c.x, c.y)) =
      (POINTER_FLAG_DOWN ||| POINTER_FLAG_INRANGE ||| POINTER_FLAG_INCONTACT, 100, 200) ::
        (List.range' 1 50).map (fun k : ℕ =>
          (POINTER_FLAG_UPDATE ||| POINTER_FLAG_INRANGE ||| POINTER_FLAG_INCONTACT,
            (100 : ℤ), (200 : ℤ) - 2 * k)) ++
        [(POINTER_FLAG_UP, 100, 100)] ∧
    ((injected calls).map (fun c => c.y))[0]? = some 200 ∧
    ((injected calls).map (fun c => c.y))[25]? = some 150 ∧
    ((injected calls).map (fun c => c.y))[50]? = some 100 ∧
    ((injected calls).map (fun c => c.y))[51]? = some 100 := by
  obtain ⟨e1, e2, e3, e4, e5, e6, e7, e8⟩ := scenario_setup
  have hlist : (injected calls).map (fun c => (c.pointerFlags, c.x, c.y)) =
      (POINTER_FLAG_DOWN ||| POINTER_FLAG_INRANGE ||| POINTER_FLAG_INCONTACT, 100, 200) ::
        (List.range' 1 50).map (fun k : ℕ =>
          (POINTER_FLAG_UPDATE ||| POINTER_FLAG_INRANGE ||| POINTER_FLAG_INCONTACT,
            (100 : ℤ), (200 : ℤ) - 2 * k)) ++
        [(POINTER_FLAG_UP, 100, 100)] := by
    unfold main at h
    simp only [e1, e2, e3, e4, e5, e6, e7, e8] at h
    have hfreq : scenario.frequency ≠ 0 := by decide
    have hacc : scenario.acceleration = false := rfl
    have hrep : scenario.repetitions = 1 := rfl
    rw [if_neg hfreq, hacc, hrep] at h
    split at h
    · simp at h
    split at h
    · simp at h
    split at h
    · simp at h
    split at h
    · simp at h
    split at h
    · simp at h
    split at h
    · rename_i hg
      simp only [Prod.mk.injEq] at h
      exact absurd h.2 (gestureLoop_error _ _ _ _ _ _ _ _ _ _ _ _ hg)
    · rename_i calls' d' hg
      simp only [Prod.mk.injEq, and_true] at h
      subst h
      have hsingle := gestureLoop_single false 100 200 100 50 _ _
        (fun k => (200 : ℤ) - 2 * (k : ℤ)) (by norm_num)
        (fun k hk1 hk2 => scenario_heights k (by omega) hk1) _ d' calls' hg
      simp only [List.append_eq, injected_append, injected, List.append_nil, List.nil_append]
      rw [hsingle]
      rfl
  have hy : (injected calls).map (fun c => c.y) =
      ((injected calls).map (fun c => (c.pointerFlags, c.x, c.y))).map (fun p => p.2.2) := by
    rw [List.map_map]; rfl
  refine ⟨e1, e2, e7, by decide!, by decide!, hlist, ?_, ?_, ?_, ?_⟩ <;>
    rw [hy, hlist] <;> decide

/-- C6, witness: the run on `steadySystem` returns 0. -/
theorem scenario_positions_witness :
    main scenario steadySystem = ((main scenario steadySystem).1, Outcome.returned 0) ∧
    (castSigned 32 (rndf (scenario.duration * (MS_PER_SEC : ℚ))) = .ok 1000 ∧
    InjectionIntervalInMsFromFrequency scenario.frequency = 20 ∧
    CalculatePacketsNeeded 1000 20 = .ok 50 ∧
    tickRatio false 25 50 = 1 / 2 ∧ tickRatio false 50 50 = 1 ∧
    (injected (main scenario steadySystem).1).map (fun c => (c.pointerFlags, c.x, c.y)) =
      (POINTER_FLAG_DOWN ||| POINTER_FLAG_INRANGE ||| POINTER_FLAG_INCONTACT, 100, 200) ::
        (List.range' 1 50).map (fun k : ℕ =>
          (POINTER_FLAG_UPDATE ||| POINTER_FLAG_INRANGE ||| POINTER_FLAG_INCONTACT,
            (100 : ℤ), (200 : ℤ) - 2 * k)) ++
        [(POINTER_FLAG_UP, 100, 100)] ∧
    ((injected (main scenario steadySystem).1).map (fun c => c.y))[0]? = some 200 ∧
    ((injected (main scenario steadySystem).1).map (fun c => c.y))[25]? = some 150 ∧
    ((injected (main scenario steadySystem).1).map (fun c => c.y))[50]? = some 100 ∧
    ((injected (main scenario steadySystem).1).map (fun c => c.y))[51]? = some 100) :=
  ⟨Prod.ext rfl (by decide!),
    scenario_positions steadySystem (main scenario steadySystem).1
      (Prod.ext rfl (by decide!))⟩

/-- C8, failing inputs: when the timer cannot be created, cannot be armed, or a wait fails,
`main` returns -1 after `timeBeginPeriod` without ever calling `timeEndPeriod`; only the
return at the end of `main` restores the timer resolution. -/
theorem early_returns_keep_timer_resolution :
    main {} noTimerSystem =
      ([Call.SetPriorityClass, Call.SetThreadPriority, Call.timeBeginPeriod 10,
        Call.CreateWaitableTimer], Outcome.returned (-1)) ∧
    main {} noArmSystem =
      ([Call.SetPriorityClass, Call.SetThreadPriority, Call.timeBeginPeriod 10,
        Call.CreateWaitableTimer, Call.SetWaitableTimer (-100000) 10, Call.CloseHandle],
        Outcome.returned (-1)) ∧
    (main {} failedWaitSystem).2 = Outcome.returned (-1) ∧
    (main {} failedWaitSystem).1.reverse.take 3 =
      [Call.CloseHandle, Call.CancelWaitableTimer, Call.WaitForSingleObject] ∧
    Call.timeBeginPeriod 10 ∈ (main {} failedWaitSystem).1 ∧
    (∀ period, Call.timeEndPeriod period ∉ (main {} failedWaitSystem).1) ∧
    Call.timeEndPeriod 20 ∈ (main scenario steadySystem).1 := by
  refine ⟨by decide!, by decide!, by decide!, by decide!, by decide!, ?_, by decide!⟩
  have h : (main {} failedWaitSystem).1 =
      [Call.SetPriorityClass, Call.SetThreadPriority, Call.timeBeginPeriod 10,
        Call.CreateWaitableTimer, Call.SetWaitableTimer (-100000) 10,
        Call.InitializeTouchInjection, Call.Sleep 1000,
        Call.InjectTouchInput ⟨65542, 100, 600, 598, 602, 98, 102, 1000⟩,
        Call.WaitForSingleObject,
        Call.InjectTouchInput ⟨131078, 100, 595, 598, 597, 98, 597, 101000⟩,
        Call.WaitForSingleObject,
        Call.InjectTouchInput ⟨131078, 100, 590, 598, 592, 98, 592, 201000⟩,
        Call.WaitForSingleObject, Call.CancelWaitableTimer, Call.CloseHandle] := by
    decide!
  intro period hmem
  rw [h] at hmem
  simp at hmem

/-- C9, failing input: in the scenario the first move is handed to injection at `(100, 198)`
with `right = 200` and `top = 198`, where a rectangle centred on the position has
`right = 102` and `top = 196`: the move loop writes `y + 2` into `right` and never updates
`top`.  The down event, set up before the loop, is centred. -/
theorem move_rectangle_not_centred :
    (injected (main scenario steadySystem).1)[0]? =
      some ⟨65542, 100, 200, 198, 202, 98, 102, 1000⟩ ∧
    (injected (main scenario steadySystem).1)[1]? =
      some ⟨131078, 100, 198, 198, 200, 98, 200, 201000⟩ := by
  decide!

end TouchInjector
